import Mathlib

/-!
Verification of the derived-asset pipeline of the adampresleyphotography
repository: the cache builder's freshness checks, the archive (zip) builder,
the archive cleanup sweep, the download-filename reverse lookup and the
service constructor defaults. Go code is shallowly embedded: Go `time.Time`
values become `Int` nanoseconds, `time.Time.Before` becomes strict `<`,
fallible collaborator calls (S3 stat/list, catalog queries) become explicit
outcome values, and side effects become explicit event lists.
-/

namespace Photo

/-- Outcome of `s3Client.StatObject(bucket, key)` as the Go code consumes it:
an error, a nil metadata pointer (object absent), or metadata carrying a
last-modified timestamp (nanoseconds). -/
inductive Stat where
  | err : Stat
  | absent : Stat
  | found (lastModified : Int) : Stat
  deriving DecidableEq, Repr

/-- `pkg/models/Album.go`: the fields the pipeline reads. -/
structure Album where
  id : Nat
  clientID : Nat
  name : String
  posterImagePath : String
  deriving DecidableEq, Repr

/-- `pkg/models/Client.go` (via ClientService): the fields the pipeline reads. -/
structure Client where
  id : Nat
  name : String
  email : String
  deriving DecidableEq, Repr

/-- `CacheCreatorService.doesThumbnailExist` (config.go, cache package):
stat the thumbnail key; an error or a nil stat yields false, and otherwise
the thumbnail is considered to exist unless `stat.LastModified.Before
(original.LastModified)`. `original` comes from a listing, so its
last-modified is always present. -/
def doesThumbnailExist (thumbStat : Stat) (originalLastModified : Int) : Bool :=
  match thumbStat with
  | .err => false
  | .absent => false
  | .found lm => !(lm < originalLastModified : Bool)

/-- `CacheCreatorService.doesHeroExist` (config.go, cache package): stat the
hero-banner key (an error yields false), then stat the original poster key
(an error yields false); then false when either stat is nil or the hero is
strictly older than the original, true otherwise. -/
def doesHeroExist (heroStat originalStat : Stat) : Bool :=
  match heroStat with
  | .err => false
  | _ =>
    match originalStat with
    | .err => false
    | .absent => false
    | .found olm =>
      match heroStat with
      | .absent => false
      | .found hlm => !(hlm < olm : Bool)
      | .err => false

/-- The body of the worker task `CreateCache` submits per album image:
regeneration (`createThumbnail`) runs exactly when `doesThumbnailExist` is
false. -/
def thumbnailTaskRegenerates (thumbStat : Stat) (originalLastModified : Int) : Bool :=
  !(doesThumbnailExist thumbStat originalLastModified)

/-- The body of the worker task `CreateCache` submits per album:
regeneration (`createHeroBanner`) runs exactly when `doesHeroExist` is
false. -/
def heroTaskRegenerates (heroStat originalStat : Stat) : Bool :=
  !(doesHeroExist heroStat originalStat)

/-! String primitives. Go's string functions are modeled on `List Char`
(ASCII-faithful, which covers every literal the pipeline manipulates) so
that every definition reduces in the kernel. -/

/-- `strings.ReplaceAll` worker: scan left to right, replacing each
non-overlapping occurrence of `pat`. Fuel is the remaining input length, so
the recursion is structural; `replaceAllChars` supplies enough fuel. The
empty-pattern case (never used by the repository) is modeled as identity. -/
def replaceAllAux (pat rep : List Char) : Nat → List Char → List Char
  | _, [] => []
  | 0, s => s
  | fuel + 1, c :: rest =>
    if pat ≠ [] ∧ pat.isPrefixOf (c :: rest) then
      rep ++ replaceAllAux pat rep fuel (rest.drop (pat.length - 1))
    else
      c :: replaceAllAux pat rep fuel rest

/-- `strings.ReplaceAll(s, pat, rep)` on char lists. -/
def replaceAllChars (pat rep s : List Char) : List Char :=
  replaceAllAux pat rep s.length s

/-- `strings.ToLower` (ASCII). -/
def goToLower (cs : List Char) : List Char :=
  cs.map Char.toLower

/-- `strings.HasSuffix(s, suf)`. -/
def goHasSuffix (cs suf : List Char) : Bool :=
  suf.isSuffixOf cs

/-- `strings.TrimSuffix(s, suf)`: drop `suf` when it is a suffix, else
return the string unchanged. -/
def trimSuffixChars (cs suf : List Char) : List Char :=
  if suf.isSuffixOf cs then cs.take (cs.length - suf.length) else cs

/-- `strings.Split(s, sep)` for a one-character separator, Go semantics:
`split("", sep) = [""]`, separators at the ends produce empty segments, and
the result is never empty. -/
def splitOnChar (sep : Char) : List Char → List (List Char)
  | [] => [[]]
  | c :: rest =>
    let r := splitOnChar sep rest
    if c = sep then [] :: r
    else
      match r with
      | [] => [[c]]
      | h :: t => (c :: h) :: t

/-- `filepath.Base`: empty path gives ".", a path of only slashes gives
"/", otherwise everything after the final slash once trailing slashes are
removed. -/
def filepathBase (cs : List Char) : List Char :=
  if cs = [] then ['.']
  else
    let trimmed := (cs.reverse.dropWhile (fun c => c = '/')).reverse
    if trimmed = [] then ['/']
    else (trimmed.reverse.takeWhile (fun c => c ≠ '/')).reverse

/-- `filepath.Base` on `String`. -/
def goFilepathBase (s : String) : String :=
  ⟨filepathBase s.toList⟩

/-- Decimal value of a digit run (the caller checks every char is a
digit). -/
def digitsToNat (cs : List Char) : Nat :=
  cs.foldl (fun acc c => acc * 10 + (c.toNat - '0'.toNat)) 0

/-- The digit phase of `strconv.ParseInt` after the sign was consumed: one
or more decimal digits whose signed value fits a 64-bit int; anything else
(including range overflow, for which Go reports ErrRange) is an error,
modeled as `none`. -/
def atoiDigits (sign : Int) (digits : List Char) : Option Int :=
  if digits = [] then none
  else if digits.all Char.isDigit then
    let v : Int := sign * (digitsToNat digits : Int)
    if -(2 ^ 63) ≤ v ∧ v ≤ 2 ^ 63 - 1 then some v else none
  else none

/-- `strconv.Atoi`: an optional single sign, then the digit phase. -/
def atoiChars (cs : List Char) : Option Int :=
  match cs with
  | [] => none
  | c :: rest =>
    if c = '+' then atoiDigits 1 rest
    else if c = '-' then atoiDigits (-1) rest
    else atoiDigits 1 (c :: rest)

/-- `filepath.Join` for the forward-slash paths this repository builds:
empty elements are skipped and the rest joined with "/". (The repository
only joins clean single-segment names, where Go's final Clean step is the
identity.) -/
def goJoinPath (parts : List String) : String :=
  String.intercalate "/" (parts.filter (fun p => p ≠ ""))

/-! ZipService (pkg/services/ZipService.go). -/

/-- The `ZipServiceConfig` fields `CreateZipAsync`, the cleanup sweep and
the constructor read (services and the S3 client become explicit
parameters of the operations that use them). -/
structure ZipServiceConfig where
  baseDownloadURL : String
  bucket : String
  clientPhotoFolder : String
  expirationDays : Int
  fromName : String
  fromEmail : String
  deriving DecidableEq, Repr

/-- `NewZipService`: the stored configuration, with `ExpirationDays`
defaulted to 7 when the configured value is not positive. -/
def newZipService (cfg : ZipServiceConfig) : ZipServiceConfig :=
  if cfg.expirationDays ≤ 0 then { cfg with expirationDays := 7 } else cfg

/-- `fmt.Sprintf("%s-%d", strings.ReplaceAll(album.Name, " ", "-"),
album.ID)` — the job id `CreateZipAsync` derives. -/
def jobIDFor (album : Album) : String :=
  (⟨replaceAllChars " ".toList "-".toList album.name.toList⟩ : String)
    ++ "-" ++ toString album.id

/-- `fmt.Sprintf("%s.zip", jobID)`. -/
def zipFilenameFor (album : Album) : String :=
  jobIDFor album ++ ".zip"

/-- The key `CreateZipAsync` targets:
`filepath.Join(ClientPhotoFolder, client.ID, album.ID, "downloads",
zipFilename)`. -/
def zipKeyFor (cfg : ZipServiceConfig) (album : Album) (client : Client) : String :=
  goJoinPath
    [cfg.clientPhotoFolder, toString client.id, toString album.id, "downloads",
      zipFilenameFor album]

/-- Observable side effects of `CreateZipAsync` (the build itself runs in
`processZip`, reached only through `spawnBuild`). -/
inductive ZipEffect where
  | statZip (bucket key : String)
  | sendEmail (toName toEmail downloadURL albumName : String) (expirationDays : Int)
  | spawnBuild (zipKey zipFilename : String)
  deriving DecidableEq, Repr

/-- What `CreateZipAsync` returns and does. -/
structure CreateZipResult where
  jobID : String
  effects : List ZipEffect
  buildSpawned : Bool
  emailError : Bool
  deriving DecidableEq, Repr

/-- `CreateZipAsync(album, client)`: derive the job id, the zip filename
and the target key; stat the key; when the stat succeeds with metadata,
send the ready email (an email failure is returned as the error) and do
not build; otherwise detach `processZip`. `statResult` is the stat
outcome, `emailOk` whether `SendEmail` succeeds. -/
def createZipAsync (cfg : ZipServiceConfig) (statResult : Stat) (emailOk : Bool)
    (album : Album) (client : Client) : CreateZipResult :=
  let jobID := jobIDFor album
  let zipFilename := zipFilenameFor album
  let zipKey := zipKeyFor cfg album client
  match statResult with
  | .found _ =>
    let downloadURL := cfg.baseDownloadURL ++ "/client/downloads/" ++ zipFilename
    { jobID := jobID
      effects :=
        [ZipEffect.statZip cfg.bucket zipKey,
          ZipEffect.sendEmail client.name client.email downloadURL album.name
            cfg.expirationDays]
      buildSpawned := false
      emailError := !emailOk }
  | _ =>
    { jobID := jobID
      effects := [ZipEffect.statZip cfg.bucket zipKey, ZipEffect.spawnBuild zipKey zipFilename]
      buildSpawned := true
      emailError := false }

/-! The background archive build (`processZip`). -/

/-- Per-image outcome inside `addFile`: the S3 `Get` fails, the zip entry
creation fails, the byte copy fails, or everything succeeds. -/
inductive ImgRes where
  | fetchFail
  | createFail
  | copyFail
  | ok
  deriving DecidableEq, Repr

/-- The image loop of `processZip`: each failing `addFile` is logged and
skipped (`continue`); a completed entry is written only on `ok`, and a
truncated entry is left behind exactly when the copy (not the fetch or the
entry creation) failed. Entry names are `filepath.Base(key)`. -/
def zipLoop : List (String × ImgRes) → List String × List String
  | [] => ([], [])
  | (key, r) :: rest =>
    let p := zipLoop rest
    match r with
    | .ok => (goFilepathBase key :: p.1, p.2)
    | .copyFail => (p.1, goFilepathBase key :: p.2)
    | _ => p

/-- Collaborator outcomes one `processZip` run encounters: the `PutStream`
setup, the originals listing (keys paired with each image's `addFile`
outcome), the two close calls, the upload acknowledgment and the email. -/
structure ZipBuildInput where
  putStreamOk : Bool
  listRes : Option (List (String × ImgRes))
  closeZipOk : Bool
  closeStreamOk : Bool
  waitOk : Bool
  emailOk : Bool
  deriving DecidableEq, Repr

/-- What a `processZip` run leaves behind. -/
structure ZipBuildResult where
  completedEntries : List String
  truncatedEntries : List String
  uploaded : Bool
  emailSent : Bool
  deriving DecidableEq, Repr

/-- `processZip`: abort on stream-setup or listing failure; otherwise run
the image loop, then close the zip writer, close the stream and wait — any
failure there is terminal (no upload acknowledged); on success send the
notification email. -/
def processZip (inp : ZipBuildInput) : ZipBuildResult :=
  if inp.putStreamOk = false then ⟨[], [], false, false⟩
  else
    match inp.listRes with
    | none => ⟨[], [], false, false⟩
    | some imgs =>
      let entries := zipLoop imgs
      if inp.closeZipOk = false then ⟨entries.1, entries.2, false, false⟩
      else if inp.closeStreamOk = false then ⟨entries.1, entries.2, false, false⟩
      else if inp.waitOk = false then ⟨entries.1, entries.2, false, false⟩
      else ⟨entries.1, entries.2, true, inp.emailOk⟩

/-! The cleanup sweep (`cleanupExpiredZips`). -/

/-- An object as an S3 listing returns it: key plus last-modified
(nanoseconds). -/
structure S3Obj where
  key : String
  lastModified : Int
  deriving DecidableEq, Repr

/-- Nanoseconds per day. -/
def nsPerDay : Int := 86400000000000

/-- `time.Now().AddDate(0, 0, -expirationDays)` modeled in nanoseconds
(UTC, no daylight-saving shift): the cutoff is now minus the retention in
days. -/
def cleanupCutoff (now expirationDays : Int) : Int :=
  now - expirationDays * nsPerDay

/-- The per-object test of the cleanup loop: skip unless the lowercased
key ends in ".zip", then delete when `file.LastModified.Before(cutoff)` —
a strict comparison. -/
def shouldDeleteZip (cutoff : Int) (o : S3Obj) : Bool :=
  goHasSuffix (goToLower o.key.toList) ".zip".toList && decide (o.lastModified < cutoff)

/-- Deletes one album's downloads listing produces. -/
def cleanupAlbumDeletes (cutoff : Int) (objs : List S3Obj) : List String :=
  (objs.filter (shouldDeleteZip cutoff)).map S3Obj.key

/-- One album inside a cleanup sweep: its ids and its downloads-listing
outcome (`none` = the S3 List call failed). -/
structure CleanupAlbum where
  clientID : Nat
  id : Nat
  listRes : Option (List S3Obj)
  deriving DecidableEq, Repr

/-- One client inside a cleanup sweep: its id and its `GetAlbumList`
outcome (`none` = the catalog query failed). -/
structure CleanupClient where
  id : Nat
  albumsRes : Option (List CleanupAlbum)
  deriving DecidableEq, Repr

/-- `cleanupExpiredZips`, returning the keys it deletes: a failed
`GetAlbumList` makes the function return (aborting every later client); a
failed downloads listing skips just that album (`continue`); otherwise
each listed object goes through `shouldDeleteZip`. -/
def cleanupSweep (cutoff : Int) : List CleanupClient → List String
  | [] => []
  | c :: rest =>
    match c.albumsRes with
    | none => []
    | some albums =>
      (albums.map (fun a =>
        match a.listRes with
        | none => []
        | some objs => cleanupAlbumDeletes cutoff objs)).flatten
        ++ cleanupSweep cutoff rest

/-- Every catalog query and downloads listing of the sweep succeeded. -/
def cleanupAllOk (clients : List CleanupClient) : Bool :=
  clients.all fun c =>
    match c.albumsRes with
    | none => false
    | some albums => albums.all fun a => a.listRes.isSome

/-! The cache-builder sweep (`CreateCache`, cache package). -/

/-- One album inside a cache sweep: ids plus the outcome of
`getAlbumImageListing` (`none` = the listing failed; otherwise the
filtered original keys). -/
structure CCAlbum where
  id : Nat
  clientID : Nat
  imagesRes : Option (List String)
  deriving DecidableEq, Repr

/-- One client inside a cache sweep: its id and its `GetAlbumList`
outcome. -/
structure CCClient where
  id : Nat
  albumsRes : Option (List CCAlbum)
  deriving DecidableEq, Repr

/-- Work `CreateCache` submits or errors it hits, in program order. -/
inductive CCEvent where
  | heroTask (clientID albumID : Nat)
  | thumbTask (clientID albumID : Nat) (key : String)
  deriving DecidableEq, Repr

/-- The album loop of `CreateCache` for one client: submit the hero task,
then list the album's originals — on failure the enclosing `CreateCache`
returns (second component `true`); on success submit one thumbnail task
per listed original and continue. -/
def createCacheAlbums (clientID : Nat) : List CCAlbum → List CCEvent × Bool
  | [] => ([], false)
  | a :: rest =>
    match a.imagesRes with
    | none => ([CCEvent.heroTask clientID a.id], true)
    | some imgs =>
      let p := createCacheAlbums clientID rest
      (CCEvent.heroTask clientID a.id :: imgs.map (CCEvent.thumbTask clientID a.id) ++ p.1,
        p.2)

/-- The client loop of `CreateCache`: a failed `GetAlbumList` makes
`CreateCache` return (no later client is processed), and an aborting album
loop does the same. -/
def createCacheClients : List CCClient → List CCEvent
  | [] => []
  | c :: rest =>
    match c.albumsRes with
    | none => []
    | some albums =>
      let p := createCacheAlbums c.id albums
      if p.2 then p.1 else p.1 ++ createCacheClients rest

/-! The cleanup-routine lifecycle (`StartCleanupRoutine` /
`StopCleanupRoutine`). `ZipService` methods take the receiver BY VALUE, so
a field assignment inside a method mutates a copy that is discarded when
the method returns; the model below reproduces exactly that. -/

/-- The `ZipService` struct fields the lifecycle touches, as the CALLER
stores them. `cleanupTicker` is `none` for a nil ticker; channels are
identified by numbers. -/
structure ZipSvcVal where
  cleanupTicker : Option Nat
  stopChan : Nat
  deriving DecidableEq, Repr

/-- The world the caller observes: its stored service value, whether the
cleanup goroutine runs, which channel that goroutine selects on, and which
channels have been closed. -/
structure JanitorWorld where
  svc : ZipSvcVal
  goroutineRunning : Bool
  goroutineStopChan : Option Nat
  closedChans : List Nat
  deriving DecidableEq, Repr

/-- `NewZipService` makes `stopCleanup` (channel 0 here) and leaves
`cleanupTicker` nil; no goroutine is running. -/
def janitorInit : JanitorWorld :=
  { svc := { cleanupTicker := none, stopChan := 0 }
    goroutineRunning := false
    goroutineStopChan := none
    closedChans := [] }

/-- `StartCleanupRoutine(interval)`: the method body assigns a fresh stop
channel and a new ticker to its receiver copy and spawns the goroutine,
which captures THAT COPY. The assignments are lost to the caller (value
receiver), so the caller's `svc` is returned unchanged; only the goroutine
(holding `freshChan`) is visible. -/
def startCleanupRoutine (w : JanitorWorld) (freshChan : Nat) : JanitorWorld :=
  { w with
    goroutineRunning := true
    goroutineStopChan := some freshChan }

/-- `StopCleanupRoutine()`: the receiver copy carries the caller's stored
fields, so the guard `s.cleanupTicker != nil` sees the caller's
`cleanupTicker`; when it is nil the method does nothing, otherwise it
closes the caller-held `stopCleanup` channel and waits on the shared
WaitGroup. The Bool reports whether the close-and-wait path ran. -/
def stopCleanupRoutine (w : JanitorWorld) : JanitorWorld × Bool :=
  match w.svc.cleanupTicker with
  | none => (w, false)
  | some _ =>
    ({ w with closedChans := w.svc.stopChan :: w.closedChans }, true)

/-! The download handler (`ClientAccessController.DownloadZip`). -/

/-- `parts[len(parts)-1]` of `strings.Split(s, "-")` — the split result is
never empty, so the default is never used. -/
def trailingSegmentOf (cs : List Char) : List Char :=
  (splitOnChar '-' cs).getLastD []

/-- The album-id recovery of `DownloadZip`:
`strconv.Atoi(parts[len(parts)-1])` where
`parts = strings.Split(strings.TrimSuffix(filename, ".zip"), "-")`. -/
def parseAlbumID (filename : String) : Option Int :=
  atoiChars (trailingSegmentOf (trimSuffixChars filename.toList ".zip".toList))

/-- What `DownloadZip` does with a request: reject with 400, or fetch the
object at the derived key and stream it to the client. -/
inductive DownloadOutcome where
  | badRequest
  | fetch (albumID : Int) (zipKey : String)
  deriving DecidableEq, Repr

/-- `DownloadZip`: sanitize the user-supplied filename with
`filepath.Base`, recover the album id from the trailing hyphen segment,
reject with 400 when `Atoi` fails, otherwise serve the object at
`filepath.Join(clientPhotoFolder, client.ID, albumID, "downloads",
filename)`. -/
def downloadZip (clientPhotoFolder : String) (clientID : Nat)
    (rawFilename : String) : DownloadOutcome :=
  let filename : String := goFilepathBase rawFilename
  match parseAlbumID filename with
  | none => .badRequest
  | some albumID =>
    .fetch albumID
      (goJoinPath
        [clientPhotoFolder, toString clientID, toString albumID, "downloads", filename])

end Photo

/-- C1: an album thumbnail or hero banner is classified fresh (no
regeneration task body runs) iff the derived object's stat finds it and its
last-modified is ≥ the source's last-modified; in particular equal
timestamps count as fresh, and an absent (or error-stat) derived object is
regenerated. -/
theorem c1_freshness_iff :
    (∀ (st : Photo.Stat) (olm : Int),
      Photo.doesThumbnailExist st olm = true ↔
        ∃ lm, st = Photo.Stat.found lm ∧ olm ≤ lm)
    ∧ (∀ (hs : Photo.Stat) (olm : Int),
      Photo.doesHeroExist hs (Photo.Stat.found olm) = true ↔
        ∃ lm, hs = Photo.Stat.found lm ∧ olm ≤ lm)
    ∧ (∀ t : Int, Photo.doesThumbnailExist (Photo.Stat.found t) t = true
        ∧ Photo.doesHeroExist (Photo.Stat.found t) (Photo.Stat.found t) = true)
    ∧ (∀ (st : Photo.Stat) (olm : Int),
      Photo.thumbnailTaskRegenerates st olm = !(Photo.doesThumbnailExist st olm))
    ∧ (∀ (hs os : Photo.Stat),
      Photo.heroTaskRegenerates hs os = !(Photo.doesHeroExist hs os)) := by
  refine ⟨?_, ?_, ?_, fun _ _ => rfl, fun _ _ => rfl⟩
  · intro st olm
    cases st with
    | err => simp [Photo.doesThumbnailExist]
    | absent => simp [Photo.doesThumbnailExist]
    | found lm =>
      simp only [Photo.doesThumbnailExist, Bool.not_eq_true', decide_eq_false_iff_not,
        Int.not_lt]
      constructor
      · intro h
        exact ⟨lm, rfl, by simpa using h⟩
      · rintro ⟨lm2, heq, hle⟩
        cases heq
        simpa using hle
  · intro hs olm
    cases hs with
    | err => simp [Photo.doesHeroExist]
    | absent => simp [Photo.doesHeroExist]
    | found hlm =>
      simp only [Photo.doesHeroExist, Bool.not_eq_true', decide_eq_false_iff_not,
        Int.not_lt]
      constructor
      · intro h
        exact ⟨hlm, rfl, by simpa using h⟩
      · rintro ⟨lm2, heq, hle⟩
        cases heq
        simpa using hle
  · intro t
    constructor
    · simp [Photo.doesThumbnailExist]
    · simp [Photo.doesHeroExist]

/-- Helper: with a one-character pattern and replacement, the
`strings.ReplaceAll` worker is a character map. -/
theorem replaceAllAux_single (a b : Char) :
    ∀ (fuel : Nat) (s : List Char), s.length ≤ fuel →
      Photo.replaceAllAux [a] [b] fuel s
        = s.map (fun c => if c = a then b else c) := by
  intro fuel
  induction fuel with
  | zero =>
    intro s hs
    cases s with
    | nil => rfl
    | cons c rest => simp at hs
  | succ fuel ih =>
    intro s hs
    cases s with
    | nil => rfl
    | cons c rest =>
      have hlen : rest.length ≤ fuel := by simpa using hs
      by_cases hac : a = c
      · subst hac
        simp only [Photo.replaceAllAux, List.isPrefixOf]
        rw [if_pos (by simp)]
        rw [show ([a] : List Char).length - 1 = 0 from rfl, List.drop_zero]
        rw [ih rest hlen]
        simp
      · simp only [Photo.replaceAllAux, List.isPrefixOf]
        rw [if_neg (by rintro ⟨-, h2⟩; exact hac (by simpa using h2))]
        rw [ih rest hlen, List.map_cons, if_neg (fun h : c = a => hac h.symm)]

/-- C7: the job id `createZipAsync` returns is the album name with every
space turned into a hyphen, then a hyphen and the decimal album id, and the
archive filename is the job id with ".zip" appended; "Spring Shoot" with id
7 gives "Spring-Shoot-7". -/
theorem c7_jobid_derivation :
    (∀ album : Photo.Album,
      Photo.jobIDFor album =
        (⟨album.name.toList.map (fun c => if c = ' ' then '-' else c)⟩ : String)
          ++ "-" ++ toString album.id
      ∧ Photo.zipFilenameFor album = Photo.jobIDFor album ++ ".zip")
    ∧ (∀ (cfg : Photo.ZipServiceConfig) (st : Photo.Stat) (emailOk : Bool)
        (album : Photo.Album) (client : Photo.Client),
        (Photo.createZipAsync cfg st emailOk album client).jobID = Photo.jobIDFor album)
    ∧ Photo.jobIDFor ⟨7, 3, "Spring Shoot", "poster.jpg"⟩ = "Spring-Shoot-7"
    ∧ Photo.zipFilenameFor ⟨7, 3, "Spring Shoot", "poster.jpg"⟩ = "Spring-Shoot-7.zip" := by
  refine ⟨?_, ?_, by decide, by decide⟩
  · intro album
    constructor
    · unfold Photo.jobIDFor Photo.replaceAllChars
      rw [show " ".toList = [' '] from by decide, show "-".toList = ['-'] from by decide]
      rw [replaceAllAux_single ' ' '-' album.name.toList.length album.name.toList le_rfl]
    · rfl
  · intro cfg st emailOk album client
    cases st <;> rfl

/-- C2: when the stat of the target archive key succeeds with metadata,
`createZipAsync` spawns no build (so none of the `processZip` effects —
PutStream, listing, zip entries — can happen), produces exactly the stat
and the ready-notification email, and returns the job id, which is the same
one any other call for the same album returns. -/
theorem c2_idempotent_when_archive_exists :
    ∀ (cfg : Photo.ZipServiceConfig) (lm : Int) (emailOk : Bool)
      (album : Photo.Album) (client : Photo.Client),
      (Photo.createZipAsync cfg (Photo.Stat.found lm) emailOk album client).buildSpawned = false
      ∧ (Photo.createZipAsync cfg (Photo.Stat.found lm) emailOk album client).effects =
          [Photo.ZipEffect.statZip cfg.bucket (Photo.zipKeyFor cfg album client),
            Photo.ZipEffect.sendEmail client.name client.email
              (cfg.baseDownloadURL ++ "/client/downloads/" ++ Photo.zipFilenameFor album)
              album.name cfg.expirationDays]
      ∧ (∀ k f, Photo.ZipEffect.spawnBuild k f ∉
          (Photo.createZipAsync cfg (Photo.Stat.found lm) emailOk album client).effects)
      ∧ (Photo.createZipAsync cfg (Photo.Stat.found lm) emailOk album client).jobID
          = Photo.jobIDFor album
      ∧ (∀ (st2 : Photo.Stat) (e2 : Bool),
          (Photo.createZipAsync cfg st2 e2 album client).jobID
            = (Photo.createZipAsync cfg (Photo.Stat.found lm) emailOk album client).jobID) := by
  intro cfg lm emailOk album client
  refine ⟨rfl, rfl, ?_, rfl, ?_⟩
  · intro k f
    simp [Photo.createZipAsync]
  · intro st2 e2
    cases st2 <;> rfl

/-- C10: `newZipService` stores a strictly positive retention: 7 when the
configured `ExpirationDays` is not positive, the configured value
otherwise; hence the cleanup cutoff lies strictly before now, and the
ready-notification email carries the defaulted value. -/
theorem c10_expiration_default :
    ∀ cfg : Photo.ZipServiceConfig,
      0 < (Photo.newZipService cfg).expirationDays
      ∧ (cfg.expirationDays ≤ 0 → (Photo.newZipService cfg).expirationDays = 7)
      ∧ (0 < cfg.expirationDays → Photo.newZipService cfg = cfg)
      ∧ (∀ now : Int,
          Photo.cleanupCutoff now (Photo.newZipService cfg).expirationDays < now)
      ∧ (∀ (lm : Int) (emailOk : Bool) (album : Photo.Album) (client : Photo.Client),
          (Photo.createZipAsync (Photo.newZipService cfg) (Photo.Stat.found lm)
              emailOk album client).effects =
            [Photo.ZipEffect.statZip (Photo.newZipService cfg).bucket
                (Photo.zipKeyFor (Photo.newZipService cfg) album client),
              Photo.ZipEffect.sendEmail client.name client.email
                ((Photo.newZipService cfg).baseDownloadURL ++ "/client/downloads/"
                  ++ Photo.zipFilenameFor album)
                album.name (Photo.newZipService cfg).expirationDays]) := by
  intro cfg
  have hpos : 0 < (Photo.newZipService cfg).expirationDays := by
    unfold Photo.newZipService
    split
    · show (0 : Int) < 7
      norm_num
    · omega
  refine ⟨hpos, ?_, ?_, ?_, ?_⟩
  · intro hle
    unfold Photo.newZipService
    rw [if_pos hle]
  · intro hgt
    unfold Photo.newZipService
    rw [if_neg (by omega)]
  · intro now
    have : 0 < (Photo.newZipService cfg).expirationDays * Photo.nsPerDay :=
      mul_pos hpos (by norm_num [Photo.nsPerDay])
    unfold Photo.cleanupCutoff
    omega
  · intro lm emailOk album client
    rfl

/-- C10 witness: a configured value of -3 is replaced by 7 and a
configured value of 5 is kept. -/
theorem c10_expiration_default_witness :
    (Photo.newZipService ⟨"u", "b", "c", -3, "f", "e"⟩).expirationDays = 7
    ∧ Photo.newZipService ⟨"u", "b", "c", 5, "f", "e"⟩
        = (⟨"u", "b", "c", 5, "f", "e"⟩ : Photo.ZipServiceConfig) :=
  ⟨(c10_expiration_default ⟨"u", "b", "c", -3, "f", "e"⟩).2.1 (by decide),
    (c10_expiration_default ⟨"u", "b", "c", 5, "f", "e"⟩).2.2.1 (by decide)⟩

/-- C4 (evaluation): starting the cleanup routine and then stopping it, the
stop call takes the nil-ticker branch and performs neither the channel
close nor the WaitGroup wait (second component `false`), leaving the
goroutine running — because the value-receiver assignments in
`StartCleanupRoutine` never reach the caller's service value, whose ticker
stays nil. -/
theorem c4_stop_is_noop_after_start :
    (Photo.stopCleanupRoutine (Photo.startCleanupRoutine Photo.janitorInit 1)).2 = false
    ∧ (Photo.stopCleanupRoutine (Photo.startCleanupRoutine Photo.janitorInit 1)).1.goroutineRunning
        = true
    ∧ (Photo.stopCleanupRoutine (Photo.startCleanupRoutine Photo.janitorInit 1)).1.closedChans
        = []
    ∧ (Photo.startCleanupRoutine Photo.janitorInit 1).svc.cleanupTicker = none := by
  decide

/-- C5 (evaluation): with two clients — the first client's first album
failing its originals listing and its second album listing one image, the
second client's album listing one image — `CreateCache` emits only the
first album's hero task: the second album and the second client are never
processed, because the listing failure makes `CreateCache` return. -/
theorem c5_listing_failure_aborts_sweep :
    Photo.createCacheClients
        [⟨1, some [⟨1, 1, none⟩, ⟨2, 1, some ["b.jpg"]⟩]⟩,
          ⟨2, some [⟨3, 2, some ["c.jpg"]⟩]⟩]
      = [Photo.CCEvent.heroTask 1 1] := by
  decide

/-- Helper: the `processZip` image loop writes, in listing order, exactly
the entries whose `addFile` succeeded, and leaves a truncated entry for
exactly the copy failures. -/
theorem zipLoop_eq_filter :
    ∀ imgs : List (String × Photo.ImgRes),
      Photo.zipLoop imgs =
        ((imgs.filter (fun p => decide (p.2 = Photo.ImgRes.ok))).map
            (fun p => Photo.goFilepathBase p.1),
          (imgs.filter (fun p => decide (p.2 = Photo.ImgRes.copyFail))).map
            (fun p => Photo.goFilepathBase p.1)) := by
  intro imgs
  induction imgs with
  | nil => rfl
  | cons hd tl ih =>
    obtain ⟨key, r⟩ := hd
    cases r <;> simp [Photo.zipLoop, ih, List.filter]

/-- C6: in one archive build whose stream setup and listing succeed, each
original whose fetch, entry creation or copy fails is skipped (it yields no
completed entry; only a copy failure leaves a truncated entry) while every
original whose `addFile` succeeds is added, in listing order; and when the
close and wait calls succeed the archive is closed and uploaded. -/
theorem c6_archive_failure_isolation :
    ∀ (inp : Photo.ZipBuildInput) (imgs : List (String × Photo.ImgRes)),
      inp.putStreamOk = true →
      inp.listRes = some imgs →
      inp.closeZipOk = true →
      inp.closeStreamOk = true →
      inp.waitOk = true →
      (Photo.processZip inp).completedEntries
          = (imgs.filter (fun p => decide (p.2 = Photo.ImgRes.ok))).map
              (fun p => Photo.goFilepathBase p.1)
      ∧ (Photo.processZip inp).truncatedEntries
          = (imgs.filter (fun p => decide (p.2 = Photo.ImgRes.copyFail))).map
              (fun p => Photo.goFilepathBase p.1)
      ∧ (Photo.processZip inp).uploaded = true := by
  intro inp imgs hput hlist hcz hcs hw
  obtain ⟨p1, p2, p3, p4, p5, p6⟩ := inp
  simp only at hput hlist hcz hcs hw
  subst hput hlist hcz hcs hw
  simp [Photo.processZip, zipLoop_eq_filter]

/-- C6 witness: three originals where the middle fetch fails — the archive
holds the first and third entries in order and is uploaded. -/
theorem c6_archive_failure_isolation_witness :
    (Photo.processZip
        ⟨true, some [("a.jpg", Photo.ImgRes.ok), ("bad.jpg", Photo.ImgRes.fetchFail),
          ("c.jpg", Photo.ImgRes.ok)], true, true, true, true⟩).completedEntries
      = ["a.jpg", "c.jpg"]
    ∧ (Photo.processZip
        ⟨true, some [("a.jpg", Photo.ImgRes.ok), ("bad.jpg", Photo.ImgRes.fetchFail),
          ("c.jpg", Photo.ImgRes.ok)], true, true, true, true⟩).uploaded = true := by
  have h := c6_archive_failure_isolation
    ⟨true, some [("a.jpg", Photo.ImgRes.ok), ("bad.jpg", Photo.ImgRes.fetchFail),
      ("c.jpg", Photo.ImgRes.ok)], true, true, true, true⟩
    [("a.jpg", Photo.ImgRes.ok), ("bad.jpg", Photo.ImgRes.fetchFail),
      ("c.jpg", Photo.ImgRes.ok)]
    rfl rfl rfl rfl rfl
  exact ⟨h.1.trans (by decide), h.2.2⟩

/-- Helper: the last element (with default) of a list is the default or a
member. -/
theorem getLastD_mem_cons_list :
    ∀ (l : List (List Char)) (d : List Char), l.getLastD d ∈ d :: l := by
  intro l
  induction l with
  | nil =>
    intro d
    simp [List.getLastD]
  | cons b t ih =>
    intro d
    rw [List.getLastD_cons]
    exact List.mem_cons_of_mem d (ih b)

/-- Helper: no segment `strings.Split` produces contains the separator. -/
theorem splitOnChar_no_sep (sep : Char) :
    ∀ (s : List Char) (part : List Char),
      part ∈ Photo.splitOnChar sep s → sep ∉ part := by
  intro s
  induction s with
  | nil =>
    intro part hm
    simp [Photo.splitOnChar] at hm
    subst hm
    simp
  | cons c rest ih =>
    intro part hm
    simp only [Photo.splitOnChar] at hm
    by_cases hc : c = sep
    · rw [if_pos hc] at hm
      rcases List.mem_cons.mp hm with h | h
      · subst h
        simp
      · exact ih part h
    · rw [if_neg hc] at hm
      cases hr : Photo.splitOnChar sep rest with
      | nil =>
        rw [hr] at hm
        simp at hm
        subst hm
        intro hmem
        simp at hmem
        exact hc hmem.symm
      | cons h t =>
        rw [hr] at hm
        rcases List.mem_cons.mp hm with hh | hh
        · subst hh
          intro hmem
          rcases List.mem_cons.mp hmem with h1 | h1
          · exact hc h1.symm
          · exact ih h (by rw [hr]; exact List.mem_cons_self h t) h1
        · exact ih part (by rw [hr]; exact List.mem_cons_of_mem h hh)

/-- Helper: the digit phase with a positive sign never returns a negative
value. -/
theorem atoiDigits_one_nonneg :
    ∀ (d : List Char) (n : Int), Photo.atoiDigits 1 d = some n → 0 ≤ n := by
  intro d n h
  unfold Photo.atoiDigits at h
  split at h
  · exact absurd h (by simp)
  · split at h
    · simp only [one_mul] at h
      split at h
      · injection h with h2
        omega
      · exact absurd h (by simp)
    · exact absurd h (by simp)

/-- Helper: `strconv.Atoi` on a string without a minus sign never returns a
negative value. -/
theorem atoiChars_nonneg :
    ∀ (cs : List Char), '-' ∉ cs → ∀ n : Int,
      Photo.atoiChars cs = some n → 0 ≤ n := by
  intro cs hnm n h
  cases cs with
  | nil => simp [Photo.atoiChars] at h
  | cons c rest =>
    have hcm : ¬c = '-' := fun he => hnm (he ▸ List.mem_cons_self c rest)
    simp only [Photo.atoiChars] at h
    by_cases hp : c = '+'
    · rw [if_pos hp] at h
      exact atoiDigits_one_nonneg rest n h
    · rw [if_neg hp, if_neg hcm] at h
      exact atoiDigits_one_nonneg (c :: rest) n h

/-- Helper: the trailing hyphen segment of any string contains no
hyphen. -/
theorem trailingSegment_no_hyphen (cs : List Char) :
    '-' ∉ Photo.trailingSegmentOf cs := by
  unfold Photo.trailingSegmentOf
  have hm := getLastD_mem_cons_list (Photo.splitOnChar '-' cs) []
  rcases List.mem_cons.mp hm with h | h
  · rw [h]
    simp
  · exact splitOnChar_no_sep '-' cs _ h

/-- C9 counterexample: the filename "Album-0.zip" has trailing segment "0",
which is not a positive integer, yet the handler does not reject — it
proceeds to serve the object for album id 0. -/
theorem c9_counterexample_zero_accepted :
    Photo.parseAlbumID "Album-0.zip" = some 0
    ∧ Photo.downloadZip "clients" 3 "Album-0.zip"
        = Photo.DownloadOutcome.fetch 0 "clients/3/0/downloads/Album-0.zip"
    ∧ ¬(0 < (0 : Int)) := by
  refine ⟨by decide, by decide, by decide⟩

/-- C9 (amended): the handler rejects (400, serving nothing) exactly when
`strconv.Atoi` fails on the trailing hyphen segment of the sanitized
filename, and otherwise serves the object for the parsed id; that id is
never negative (segments contain no hyphen) but may be zero, and the
handler is a total function — no input crashes it. -/
theorem c9_reject_iff_atoi_fails :
    ∀ (folder : String) (clientID : Nat) (raw : String),
      (Photo.downloadZip folder clientID raw = Photo.DownloadOutcome.badRequest ↔
        Photo.parseAlbumID (Photo.goFilepathBase raw) = none)
      ∧ (∀ n : Int, Photo.parseAlbumID (Photo.goFilepathBase raw) = some n →
          0 ≤ n
          ∧ Photo.downloadZip folder clientID raw
              = Photo.DownloadOutcome.fetch n
                  (Photo.goJoinPath
                    [folder, toString clientID, toString n, "downloads",
                      Photo.goFilepathBase raw])) := by
  intro folder clientID raw
  constructor
  · cases h : Photo.parseAlbumID (Photo.goFilepathBase raw) with
    | none => simp [Photo.downloadZip, h]
    | some k => simp [Photo.downloadZip, h]
  · intro n hn
    refine ⟨?_, ?_⟩
    · exact atoiChars_nonneg _ (trailingSegment_no_hyphen _) n hn
    · simp [Photo.downloadZip, hn]

/-- C9 witness: "Spring-Shoot-7.zip" parses to 7 (nonnegative) and is not
rejected. -/
theorem c9_reject_iff_atoi_fails_witness :
    Photo.downloadZip "clients" 3 "Spring-Shoot-7.zip" ≠ Photo.DownloadOutcome.badRequest
    ∧ 0 ≤ (7 : Int) := by
  have h := (c9_reject_iff_atoi_fails "clients" 3 "Spring-Shoot-7.zip").2 7 (by decide)
  refine ⟨?_, h.1⟩
  rw [h.2]
  decide

/-- Helper: when every catalog query and downloads listing succeeds, the
cleanup sweep deletes exactly the keys of listed objects passing
`shouldDeleteZip`. -/
theorem cleanupSweep_mem_iff (cutoff : Int) :
    ∀ (clients : List Photo.CleanupClient) (key : String),
      Photo.cleanupAllOk clients = true →
      (key ∈ Photo.cleanupSweep cutoff clients ↔
        ∃ c, c ∈ clients ∧ ∃ albums, c.albumsRes = some albums ∧
          ∃ a, a ∈ albums ∧ ∃ objs, a.listRes = some objs ∧
            ∃ o, o ∈ objs ∧ o.key = key ∧ Photo.shouldDeleteZip cutoff o = true) := by
  intro clients
  induction clients with
  | nil =>
    intro key hok
    simp [Photo.cleanupSweep]
  | cons c rest ih =>
    intro key hok
    have hparts : (match c.albumsRes with
        | none => false
        | some albums => albums.all fun a => a.listRes.isSome) = true
        ∧ Photo.cleanupAllOk rest = true := by
      simpa [Photo.cleanupAllOk] using hok
    cases ha : c.albumsRes with
    | none =>
      rw [ha] at hparts
      simp at hparts
    | some albums =>
      rw [ha] at hparts
      have halb : ∀ a ∈ albums, a.listRes.isSome = true := by
        simpa [List.all_eq_true] using hparts.1
      have hrest := hparts.2
      constructor
      · intro hmem
        simp only [Photo.cleanupSweep, ha] at hmem
        rcases List.mem_append.mp hmem with hl | hr
        · rcases List.mem_flatten.mp hl with ⟨x, hx, hkx⟩
          rcases List.mem_map.mp hx with ⟨a, hamem, rfl⟩
          cases hlr : a.listRes with
          | none =>
            rw [hlr] at hkx
            simp at hkx
          | some objs =>
            rw [hlr] at hkx
            rcases List.mem_map.mp hkx with ⟨o, homem, rfl⟩
            rcases List.mem_filter.mp homem with ⟨ho1, ho2⟩
            exact ⟨c, List.mem_cons_self c rest, albums, ha, a, hamem, objs, hlr, o,
              ho1, rfl, ho2⟩
        · rcases (ih key hrest).mp hr with ⟨c2, hc2, htail⟩
          exact ⟨c2, List.mem_cons_of_mem c hc2, htail⟩
      · rintro ⟨c2, hc2mem, albums2, ha2, a, hamem, objs, hlr, o, homem, hkey, hdel⟩
        simp only [Photo.cleanupSweep, ha]
        rw [List.mem_append]
        rcases List.mem_cons.mp hc2mem with rfl | h2
        · left
          have halbs : albums2 = albums := by
            rw [ha] at ha2
            exact (Option.some.inj ha2).symm
          subst halbs
          refine List.mem_flatten.mpr ⟨Photo.cleanupAlbumDeletes cutoff objs, ?_, ?_⟩
          · refine List.mem_map.mpr ⟨a, hamem, ?_⟩
            rw [hlr]
          · exact List.mem_map.mpr ⟨o, List.mem_filter.mpr ⟨homem, hdel⟩, hkey⟩
        · right
          exact (ih key hrest).mpr ⟨c2, h2, albums2, ha2, a, hamem, objs, hlr, o,
            homem, hkey, hdel⟩

/-- C3: in a cleanup sweep whose catalog queries and downloads listings all
succeed, with cutoff = now − retention-days, a listed object is deleted iff
its lowercased key ends in ".zip" and its last-modified is strictly before
the cutoff; an object whose last-modified equals the cutoff is kept. -/
theorem c3_cleanup_deletion_criterion :
    ∀ (now days : Int) (clients : List Photo.CleanupClient) (key : String),
      Photo.cleanupAllOk clients = true →
      (key ∈ Photo.cleanupSweep (Photo.cleanupCutoff now days) clients ↔
        ∃ c, c ∈ clients ∧ ∃ albums, c.albumsRes = some albums ∧
          ∃ a, a ∈ albums ∧ ∃ objs, a.listRes = some objs ∧
            ∃ o, o ∈ objs ∧ o.key = key
              ∧ Photo.goHasSuffix (Photo.goToLower o.key.toList) ".zip".toList = true
              ∧ o.lastModified < Photo.cleanupCutoff now days) := by
  intro now days clients key hok
  rw [cleanupSweep_mem_iff (Photo.cleanupCutoff now days) clients key hok]
  simp only [Photo.shouldDeleteZip, Bool.and_eq_true, decide_eq_true_eq, and_assoc]

/-- C3 witness: with retention 7 days and now equal to 7 days past the
epoch (cutoff 0), a one-nanosecond-stale ".ZIP" object is deleted while an
object dated exactly at the cutoff survives. -/
theorem c3_cleanup_deletion_criterion_witness :
    "stale.ZIP" ∈ Photo.cleanupSweep (Photo.cleanupCutoff (7 * Photo.nsPerDay) 7)
        [⟨1, some [⟨1, 4, some [⟨"stale.ZIP", -1⟩, ⟨"boundary.zip", 0⟩]⟩]⟩]
    ∧ "boundary.zip" ∉ Photo.cleanupSweep (Photo.cleanupCutoff (7 * Photo.nsPerDay) 7)
        [⟨1, some [⟨1, 4, some [⟨"stale.ZIP", -1⟩, ⟨"boundary.zip", 0⟩]⟩]⟩] := by
  constructor
  · refine (c3_cleanup_deletion_criterion (7 * Photo.nsPerDay) 7
      [⟨1, some [⟨1, 4, some [⟨"stale.ZIP", -1⟩, ⟨"boundary.zip", 0⟩]⟩]⟩]
      "stale.ZIP" (by decide)).mpr ?_
    refine ⟨⟨1, some [⟨1, 4, some [⟨"stale.ZIP", -1⟩, ⟨"boundary.zip", 0⟩]⟩]⟩,
      by decide, [⟨1, 4, some [⟨"stale.ZIP", -1⟩, ⟨"boundary.zip", 0⟩]⟩], rfl,
      ⟨1, 4, some [⟨"stale.ZIP", -1⟩, ⟨"boundary.zip", 0⟩]⟩, by decide,
      [⟨"stale.ZIP", -1⟩, ⟨"boundary.zip", 0⟩], rfl,
      ⟨"stale.ZIP", -1⟩, by decide, rfl, by decide, by decide⟩
  · decide
